import Mathlib

/-!
# go-radosgw: request construction and error classification

A shallow embedding of `pkg/api/api.go` and `pkg/api/helpers.go`.

* Go `string` values that are text (hosts, routes, query keys and values, error
  messages) are Lean `String`s; Go byte slices, and the one Go string that may
  hold arbitrary bytes (the payload hash), are lists of naturals below 256.
* A Go `error` is `Option String`: `none` is the nil error, `some m` an error
  whose `Error()` text is `m`.
* Go `int` values (HTTP status, calendar components) are `Int`; nothing in the
  embedded code does arithmetic on them.
* The standard-library pieces the code calls (`fmt.Sprintf`, `url.Values`,
  `url.QueryEscape`, `crypto/sha256`) are embedded from their documented
  behaviour; the network, the JSON decoder and the `get` / `delete` helpers are
  parameters.
-/

set_option autoImplicit false
set_option maxRecDepth 100000

namespace radosAPI

/-! ## Bytes and text -/

/-- A Go byte slice (or the bytes of a Go string). -/
abbrev Bytes := List Nat

/-- UTF-8 encoding of one code point, as Go stores it inside a string. -/
def utf8EncodeChar (c : Char) : Bytes :=
  let n := c.toNat
  if n < 128 then [n]
  else if n < 2048 then [192 + n / 64, 128 + n % 64]
  else if n < 65536 then [224 + n / 4096, 128 + (n / 64) % 64, 128 + n % 64]
  else [240 + n / 262144, 128 + (n / 4096) % 64, 128 + (n / 64) % 64, 128 + n % 64]

/-- The bytes of a Go string holding the text `s`. -/
def stringBytes (s : String) : Bytes :=
  s.data.flatMap utf8EncodeChar

/-! ## fmt.Sprintf (the verbs the package uses) -/

/-- An operand of `fmt.Sprintf`. -/
inductive Arg where
  | int (i : Int)
  | str (s : String)
  | err (e : Option String)

/-- Decimal rendering of a Go `int` under `%v` and `%d`. -/
def fmtInt : Int → String
  | Int.ofNat n => Nat.repr n
  | Int.negSucc n => "-" ++ Nat.repr (n + 1)

/-- Rendering of one operand under `%v`, `%d` or `%s`: integers in decimal,
strings verbatim, an error by its message and the nil error as `<nil>`. -/
def fmtArg : Arg → String
  | Arg.int i => fmtInt i
  | Arg.str s => s
  | Arg.err (some m) => m
  | Arg.err none => "<nil>"

/-- Expansion of a format: each `%` together with the verb character after it
consumes one operand, every other character is copied. -/
def sprintfGo : List Char → List Arg → List Char
  | [], _ => []
  | [c], _ => [c]
  | c :: v :: rest, args =>
    if c = '%' then
      match args with
      | a :: more => (fmtArg a).data ++ sprintfGo rest more
      | [] => c :: '!' :: v :: ("(MISSING)".data ++ sprintfGo rest [])
    else c :: sprintfGo (v :: rest) args

/-- The Go `fmt.Sprintf` (and the message of `fmt.Errorf`). -/
def Sprintf (format : String) (args : List Arg) : String :=
  ⟨sprintfGo format.data args⟩

/-! ## net/url: Values, QueryEscape, Encode -/

/-- Go `url.Values`, a `map[string][]string`: one entry per key, each key at
most once when built with `Add` from the empty map. -/
abbrev Values := List (String × List String)

/-- The Go `v[key]`: the values under `key`, empty when the key is absent. -/
def Values.lookup : Values → String → List String
  | [], _ => []
  | (k, vs) :: rest, key => if k = key then vs else Values.lookup rest key

/-- Whether `key` is a key of the map. -/
def Values.has (v : Values) (key : String) : Bool :=
  v.any (fun kv => decide (kv.1 = key))

/-- The Go `Values.Add`: `v[key] = append(v[key], value)`. -/
def Values.Add : Values → String → String → Values
  | [], key, value => [(key, [value])]
  | (k, vs) :: rest, key, value =>
    if k = key then (k, vs ++ [value]) :: rest
    else (k, vs) :: Values.Add rest key value

/-- Go `shouldEscape(c, encodeQueryComponent)`: only ASCII letters, digits and
`-`, `_`, `.`, `~` pass unescaped. -/
def shouldEscape (c : Nat) : Bool :=
  if (97 ≤ c ∧ c ≤ 122) ∨ (65 ≤ c ∧ c ≤ 90) ∨ (48 ≤ c ∧ c ≤ 57) then false
  else if c = 45 ∨ c = 95 ∨ c = 46 ∨ c = 126 then false
  else true

/-- The table `upperhex` of net/url. -/
def upperhex (n : Nat) : Char :=
  "0123456789ABCDEF".data.getD n '0'

/-- Escaping of one byte by `url.QueryEscape`. -/
def escapeByte (c : Nat) : List Char :=
  if shouldEscape c then
    if c = 32 then ['+']
    else ['%', upperhex (c / 16), upperhex (c % 16)]
  else [Char.ofNat c]

/-- The Go `url.QueryEscape`. -/
def QueryEscape (s : String) : String :=
  ⟨(stringBytes s).flatMap escapeByte⟩

/-- Bytewise lexicographic `a <= b`, the order of `sort.Strings`. -/
def bytesLe : Bytes → Bytes → Bool
  | [], _ => true
  | _ :: _, [] => false
  | a :: as, b :: bs => if a < b then true else if b < a then false else bytesLe as bs

/-- Insertion of a key into a sorted key list. -/
def insertKey (k : String) : List String → List String
  | [] => [k]
  | x :: xs =>
    if bytesLe (stringBytes k) (stringBytes x) then k :: x :: xs
    else x :: insertKey k xs

/-- The Go `sort.Strings` on the keys of a map. -/
def sortKeys (keys : List String) : List String :=
  keys.foldr insertKey []

/-- One `key=value` item written by `Encode`, with `&` first when the buffer
already holds something. -/
def encodeItem (keyEscaped : String) (buf : String) (value : String) : String :=
  (if buf.length > 0 then buf ++ "&" else buf) ++ keyEscaped ++ "=" ++ QueryEscape value

/-- The Go `Values.Encode`: keys in sorted order, every value of a key as
`key=value`, escaped, joined by `&`. -/
def Values.Encode (v : Values) : String :=
  (sortKeys (v.map Prod.fst)).foldl
    (fun buf k => (v.lookup k).foldl (encodeItem (QueryEscape k)) buf) ""

/-! ## crypto/sha256 -/

/-- The round constants of SHA-256. -/
def sha256K : List Nat := [
  0x428a2f98, 0x71374491, 0xb5c0fbcf, 0xe9b5dba5, 0x3956c25b, 0x59f111f1, 0x923f82a4, 0xab1c5ed5,
  0xd807aa98, 0x12835b01, 0x243185be, 0x550c7dc3, 0x72be5d74, 0x80deb1fe, 0x9bdc06a7, 0xc19bf174,
  0xe49b69c1, 0xefbe4786, 0x0fc19dc6, 0x240ca1cc, 0x2de92c6f, 0x4a7484aa, 0x5cb0a9dc, 0x76f988da,
  0x983e5152, 0xa831c66d, 0xb00327c8, 0xbf597fc7, 0xc6e00bf3, 0xd5a79147, 0x06ca6351, 0x14292967,
  0x27b70a85, 0x2e1b2138, 0x4d2c6dfc, 0x53380d13, 0x650a7354, 0x766a0abb, 0x81c2c92e, 0x92722c85,
  0xa2bfe8a1, 0xa81a664b, 0xc24b8b70, 0xc76c51a3, 0xd192e819, 0xd6990624, 0xf40e3585, 0x106aa070,
  0x19a4c116, 0x1e376c08, 0x2748774c, 0x34b0bcb5, 0x391c0cb3, 0x4ed8aa4a, 0x5b9cca4f, 0x682e6ff3,
  0x748f82ee, 0x78a5636f, 0x84c87814, 0x8cc70208, 0x90befffa, 0xa4506ceb, 0xbef9a3f7, 0xc67178f2]

/-- The initial hash value of SHA-256. -/
def sha256Init : List Nat :=
  [0x6a09e667, 0xbb67ae85, 0x3c6ef372, 0xa54ff53a, 0x510e527f, 0x9b05688c, 0x1f83d9ab, 0x5be0cd19]

/-- Rotation of a 32-bit word to the right. -/
def rotr (x n : Nat) : Nat :=
  ((x >>> n) ||| (x <<< (32 - n))) % 2 ^ 32

/-- Message padding: a 0x80 byte, zeros up to 56 modulo 64, the bit length in
eight big-endian bytes. -/
def sha256Pad (msg : Bytes) : Bytes :=
  msg ++ [128] ++ List.replicate ((119 - msg.length % 64) % 64) 0 ++
    (List.range 8).map (fun i => ((8 * msg.length) >>> (8 * (7 - i))) % 256)

/-- The first `n` blocks of 64 bytes. -/
def sha256Blocks : Nat → Bytes → List Bytes
  | 0, _ => []
  | n + 1, bs => bs.take 64 :: sha256Blocks n (bs.drop 64)

/-- The sixteen big-endian words of a block. -/
def sha256Words (blk : Bytes) : List Nat :=
  (List.range 16).map
    (fun i => ((blk.drop (4 * i)).take 4).foldl (fun acc x => acc * 256 + x) 0)

/-- One step of the message schedule; the schedule is kept newest word first. -/
def sha256Extend (w : List Nat) (_i : Nat) : List Nat :=
  let w2 := w.getD 1 0
  let w7 := w.getD 6 0
  let w15 := w.getD 14 0
  let w16 := w.getD 15 0
  let s0 := rotr w15 7 ^^^ rotr w15 18 ^^^ (w15 >>> 3)
  let s1 := rotr w2 17 ^^^ rotr w2 19 ^^^ (w2 >>> 10)
  ((w16 + s0 + w7 + s1) % 2 ^ 32) :: w

/-- The 64-word message schedule of a block. -/
def sha256Schedule (blk : Bytes) : List Nat :=
  ((List.range 48).foldl sha256Extend (sha256Words blk).reverse).reverse

/-- One round of the compression function on the working variables. -/
def sha256Round (s : List Nat) (kw : Nat × Nat) : List Nat :=
  match s with
  | [a, b, c, d, e, f, g, h] =>
    let S1 := rotr e 6 ^^^ rotr e 11 ^^^ rotr e 25
    let ch := (e &&& f) ^^^ ((2 ^ 32 - 1 - e) &&& g)
    let t1 := (h + S1 + ch + kw.1 + kw.2) % 2 ^ 32
    let S0 := rotr a 2 ^^^ rotr a 13 ^^^ rotr a 22
    let maj := (a &&& b) ^^^ (a &&& c) ^^^ (b &&& c)
    let t2 := (S0 + maj) % 2 ^ 32
    [(t1 + t2) % 2 ^ 32, a, b, c, (d + t1) % 2 ^ 32, e, f, g]
  | _ => s

/-- The compression function: 64 rounds, then the feed-forward addition. -/
def sha256Compress (h : List Nat) (blk : Bytes) : List Nat :=
  List.zipWith (fun x y => (x + y) % 2 ^ 32) h
    ((sha256K.zip (sha256Schedule blk)).foldl sha256Round h)

/-- The SHA-256 digest of a message: 32 bytes. -/
def sha256 (msg : Bytes) : Bytes :=
  ((sha256Blocks ((sha256Pad msg).length / 64) (sha256Pad msg)).foldl
      sha256Compress sha256Init).flatMap
    (fun w => [(w >>> 24) % 256, (w >>> 16) % 256, (w >>> 8) % 256, w % 256])

/-- A Go `hash.Hash` of `crypto/sha256`, by the bytes written to it so far. -/
structure Digest where
  written : Bytes

/-- The Go `sha256.New()`: a hash with nothing written. -/
def sha256New : Digest :=
  ⟨[]⟩

/-- The Go `Hash.Sum(b)`: appends the digest of what was written to `b` and
returns the resulting slice; `b` itself is not hashed. -/
def Digest.Sum (d : Digest) (b : Bytes) : Bytes :=
  b ++ sha256 d.written

/-- A lowercase hexadecimal digit as an ASCII byte. -/
def hexDigitByte (n : Nat) : Nat :=
  if n < 10 then 48 + n else 87 + n

/-- Lowercase hexadecimal rendering of bytes, two ASCII characters per byte. -/
def hexEncode (bs : Bytes) : Bytes :=
  bs.flatMap (fun b => [hexDigitByte (b / 16), hexDigitByte (b % 16)])

/-- Whether a byte is the ASCII code of one of `0`..`9`, `a`..`f`. -/
def isLowerHex (c : Nat) : Bool :=
  (48 ≤ c && c ≤ 57) || (97 ≤ c && c ≤ 102)

/-! ## api.go -/

/-- The part of a Go `*http.Request` the package touches. `Body` is `none` for
a nil body and `some p` for a reader that yields the bytes `p`. -/
structure Request where
  Method : String
  URL : String
  Body : Option Bytes
deriving DecidableEq

/-- The function `getRequestBodySHA256`: the payload hash, and the request
with its body put back. -/
def getRequestBodySHA256 (request : Request) : Bytes × Request :=
  match request.Body with
  | none =>
    (stringBytes "e3b0c44298fc1c149afbf4c8996fb92427ae41e4649b934ca495991b7852b855", request)
  | some payload =>
    let request := { request with Body := some payload }
    (sha256New.Sum payload, request)

/-- The struct `API`. The field holding the admin path segment is called
`prefix` in the source. -/
structure API (Client : Type) where
  host : String
  accessKey : String
  secretKey : String
  pfx : String
  client : Client

/-- The function `NewWithClient`. -/
def NewWithClient {Client : Type} (client : Client) (host accessKey secretKey : String)
    (adminPrefix : List String) : Except String (API Client) :=
  let pfx := match adminPrefix with
    | p :: _ => p
    | [] => "admin"
  if host = "" ∨ accessKey = "" ∨ secretKey = "" then
    Except.error (Sprintf "host, accessKey, secretKey must be not nil" [])
  else Except.ok ⟨host, accessKey, secretKey, pfx, client⟩

/-- The function `New`; `zeroClient` stands for the Go `&http.Client{}`. -/
def New {Client : Type} (zeroClient : Client) (host accessKey secretKey : String)
    (adminPrefix : List String) : Except String (API Client) :=
  NewWithClient zeroClient host accessKey secretKey adminPrefix

/-- Modelled from the spec: the type `apiError` is declared outside the two
source files; the spec describes it as a small structure carrying an error
code string, read from the JSON field `Code`. -/
structure apiError where
  Code : String

/-- What `signer.SignHTTP` is given: the credentials, the request, the payload
hash, the service and the region. -/
structure SignedRequest where
  AccessKeyID : String
  SecretAccessKey : String
  request : Request
  payloadHash : Bytes
  service : String
  region : String

/-- What `client.Do` hands back on success: the status, and the outcome of
`ioutil.ReadAll` on the body (the bytes read and the read error, if any). -/
structure Response where
  StatusCode : Int
  body : Bytes
  readErr : Option String

/-- The world outside the package: `http.NewRequest` (its error, if any, for a
verb and URL), `client.Do`, and `json.Unmarshal` into an `apiError` (`none`
when unmarshalling fails). -/
structure Env (Client : Type) where
  NewRequestErr : String → String → Option String
  Do : Client → SignedRequest → Except String Response
  Unmarshal : Bytes → Option apiError

/-- Lines 48 to 61 of `makeRequest` once `http.NewRequest` has succeeded: the
request is built with a nil body, its payload hash is taken, and request, hash
and credentials go to `signer.SignHTTP` with service `s3` and region
`us-east-1`. The result is what `client.Do` is then given. -/
def signedRequest {Client : Type} (api : API Client) (verb url : String) : SignedRequest :=
  let req : Request := ⟨verb, url, none⟩
  let hashed := getRequestBodySHA256 req
  ⟨api.accessKey, api.secretKey, hashed.2, hashed.1, "s3", "us-east-1"⟩

/-- The method `API.makeRequest`: `(body, statusCode, err)`. -/
def makeRequest {Client : Type} (env : Env Client) (api : API Client) (verb url : String) :
    Bytes × Int × Option String :=
  match env.NewRequestErr verb url with
  | some e => ([], 0, some e)
  | none =>
    match env.Do api.client (signedRequest api verb url) with
    | Except.error e => ([], 0, some e)
    | Except.ok resp =>
      match resp.readErr with
      | some e => (resp.body, resp.StatusCode, some e)
      | none =>
        match env.Unmarshal resp.body with
        | some apiErr =>
          if apiErr.Code ≠ "" then (resp.body, resp.StatusCode, some apiErr.Code)
          else (resp.body, resp.StatusCode, none)
        | none => (resp.body, resp.StatusCode, none)

/-- The URL `call` builds for `makeRequest`. -/
def callURL {Client : Type} (api : API Client) (route : String) (args : Values)
    (usePrefix : Bool) (sub : List String) : String :=
  let subreq := match sub with
    | s :: _ => Sprintf "%s&" [Arg.str s]
    | [] => ""
  let route := if usePrefix then Sprintf "/%s%s" [Arg.str api.pfx, Arg.str route] else route
  Sprintf "%v%v?%v%s" [Arg.str api.host, Arg.str route, Arg.str subreq, Arg.str args.Encode]

/-- The method `API.call`: `(body, statusCode, err)`. -/
def call {Client : Type} (env : Env Client) (api : API Client) (verb route : String)
    (args : Values) (usePrefix : Bool) (sub : List String) : Bytes × Int × Option String :=
  match makeRequest env api verb (callURL api route args usePrefix sub) with
  | (body, statusCode, err) =>
    if statusCode ≠ 200 then
      (body, statusCode, some (Sprintf "[%v]: %v" [Arg.int statusCode, Arg.err err]))
    else (body, statusCode, err)

/-! ## helpers.go -/

/-- A Go `time.Time`, by what its accessors `Year()`, `Month()`, `Day()`,
`Hour()`, `Minute()` and `Second()` return (`Month()` as its number). -/
structure Time where
  Year : Int
  Month : Int
  Day : Int
  Hour : Int
  Minute : Int
  Second : Int

/-- The struct `UsageConfig`; an unset `*time.Time` is `none`. -/
structure UsageConfig where
  UID : String
  Start : Option Time
  End : Option Time
  ShowEntries : Bool
  ShowSummary : Bool
  RemoveAll : Bool

/-- The query values `GetUsage` hands to `api.get`; `translated` is what
`structToUrl.Translate(conf)` returned. -/
def GetUsageValues (translated : Values) (conf : Option UsageConfig) : Values :=
  let values := translated
  let values := values.Add "format" "json"
  match conf with
  | none => values
  | some conf =>
    let values := if ¬ conf.ShowEntries then values.Add "show-entries" "False" else values
    let values := if ¬ conf.ShowSummary then values.Add "show-summary" "False" else values
    let values := match conf.Start with
      | some t =>
        let timeStamp := Sprintf "%v-%d-%v %v:%v:%v"
          [Arg.int t.Year, Arg.int t.Month, Arg.int t.Day,
           Arg.int t.Hour, Arg.int t.Minute, Arg.int t.Second]
        values.Add "start" timeStamp
      | none => values
    let values := match conf.End with
      | some t =>
        let timeStamp := Sprintf "%v-%d-%v %v:%v:%v"
          [Arg.int t.Year, Arg.int t.Month, Arg.int t.Day,
           Arg.int t.Hour, Arg.int t.Minute, Arg.int t.Second]
        values.Add "end" timeStamp
      | none => values
    values

/-- The method `API.GetUsage`. `Translate` is `structToUrl.Translate`, `get` is
`api.get` and `decode` is `json.Unmarshal` into a `Usage`, all three declared
outside the two source files. -/
def GetUsage {Usage : Type} (Translate : Option UsageConfig → Values)
    (get : String → Values → Bytes × Int × Option String)
    (decode : Bytes → Except String Usage) (conf : Option UsageConfig) : Except String Usage :=
  match get "/admin/usage" (GetUsageValues (Translate conf) conf) with
  | (_, _, some err) => Except.error err
  | (body, _, none) => decode body

/-- The query values `DeleteUsage` hands to `api.delete`. -/
def DeleteUsageValues (conf : Option UsageConfig) : Values :=
  let values : Values := []
  let values := values.Add "format" "json"
  match conf with
  | none => values
  | some conf =>
    let values := if conf.UID ≠ "" then values.Add "uid" conf.UID else values
    let values := if conf.RemoveAll then values.Add "remove-all" "True" else values
    let values := match conf.Start with
      | some t =>
        let timeStamp := Sprintf "%v-%d-%v %v:%v:%v"
          [Arg.int t.Year, Arg.int t.Month, Arg.int t.Day,
           Arg.int t.Hour, Arg.int t.Minute, Arg.int t.Second]
        values.Add "start" timeStamp
      | none => values
    let values := match conf.End with
      | some t =>
        let timeStamp := Sprintf "%v-%d-%v %v:%v:%v"
          [Arg.int t.Year, Arg.int t.Month, Arg.int t.Day,
           Arg.int t.Hour, Arg.int t.Minute, Arg.int t.Second]
        values.Add "end" timeStamp
      | none => values
    values

/-- The method `API.DeleteUsage`; `delete` is `api.delete`, declared outside
the two source files. The result is the returned error. -/
def DeleteUsage (delete : String → Values → Bytes × Int × Option String)
    (conf : Option UsageConfig) : Option String :=
  match delete "/admin/usage" (DeleteUsageValues conf) with
  | (_, _, some err) => some err
  | (_, _, none) => none

/-- The query values `GetUser` hands to `api.get`. -/
def GetUserValues (uid : List String) : Values :=
  let values : Values := []
  let values := values.Add "format" "json"
  match uid with
  | u :: _ => values.Add "uid" u
  | [] => values

/-- The method `API.GetUser`; `get` is `api.get` and `decode` is
`json.Unmarshal` into a `User`, both declared outside the two source files. -/
def GetUser {User : Type} (get : String → Values → Bytes × Int × Option String)
    (decode : Bytes → Except String User) (uid : List String) : Except String User :=
  match get "/admin/user" (GetUserValues uid) with
  | (_, _, some err) => Except.error err
  | (body, _, none) => decode body

/-! ## The formats as the specification words them -/

/-- The timestamp format in words: year, month number, day, hour, minute and
second in decimal, joined by `-`, `-`, a blank, `:` and `:`. -/
def renderTime (t : Time) : String :=
  fmtInt t.Year ++ "-" ++ fmtInt t.Month ++ "-" ++ fmtInt t.Day ++ " " ++
    fmtInt t.Hour ++ ":" ++ fmtInt t.Minute ++ ":" ++ fmtInt t.Second

/-- Bytewise lexicographic order in words: the empty sequence comes first, and
otherwise the first bytes decide unless they are equal. -/
def lexLe : Bytes → Bytes → Prop
  | [], _ => True
  | _ :: _, [] => False
  | a :: as, b :: bs => a < b ∨ (a = b ∧ lexLe as bs)

/-- The characters a query component may hold after escaping: ASCII letters
and digits, `-`, `_`, `.`, `~`, and the escapes `%` and `+`. -/
def isQuerySafe (c : Char) : Bool :=
  c.isAlphanum || c = '-' || c = '_' || c = '.' || c = '~' || c = '%' || c = '+'

/-- Value of a hexadecimal digit. -/
def hexValue (c : Char) : Option Nat :=
  if c.isDigit then some (c.toNat - 48)
  else if 65 ≤ c.toNat ∧ c.toNat ≤ 70 then some (c.toNat - 55)
  else if 97 ≤ c.toNat ∧ c.toNat ≤ 102 then some (c.toNat - 87)
  else none

/-- Reading a query component back: `%XX` is the byte with hexadecimal value
`XX`, `+` is a blank, any other character stands for itself. -/
def queryUnescape : List Char → Option Bytes
  | [] => some []
  | c :: rest =>
    if c = '%' then
      match rest with
      | d :: e :: rest2 =>
        match hexValue d, hexValue e, queryUnescape rest2 with
        | some h, some l, some r => some ((16 * h + l) :: r)
        | _, _, _ => none
      | _ => none
    else if c = '+' then (queryUnescape rest).map (fun r => 32 :: r)
    else (queryUnescape rest).map (fun r => c.toNat :: r)

/-- The items of a query in words: for every key in the given order and every
value under it, the escaped key, `=`, and the escaped value. -/
def queryItems (v : Values) (keys : List String) : List String :=
  keys.flatMap (fun k => (v.lookup k).map (fun x => QueryEscape k ++ "=" ++ QueryEscape x))

/-! ## Lemmas on the library embedding -/

theorem lookup_Add (v : Values) (key value k : String) :
    (v.Add key value).lookup k = if key = k then v.lookup k ++ [value] else v.lookup k := by
  induction v with
  | nil => by_cases h : key = k <;> simp [Values.Add, Values.lookup, h]
  | cons kv rest ih =>
    obtain ⟨k0, vs⟩ := kv
    by_cases h0 : k0 = key
    · by_cases h : key = k
      · subst h0; subst h; simp [Values.Add, Values.lookup]
      · have h1 : ¬ k0 = k := by rw [h0]; exact h
        simp [Values.Add, Values.lookup, h0, h]
    · by_cases h1 : k0 = k
      · subst h1
        have h : ¬ key = k0 := fun e => h0 e.symm
        simp [Values.Add, Values.lookup, h0, h]
      · simp [Values.Add, Values.lookup, h0, h1, ih]

theorem has_Add (v : Values) (key value k : String) :
    (v.Add key value).has k = (v.has k || decide (key = k)) := by
  induction v with
  | nil => simp [Values.Add, Values.has]
  | cons kv rest ih =>
    obtain ⟨k0, vs⟩ := kv
    by_cases h0 : k0 = key
    · subst h0
      by_cases h1 : k0 = k <;> simp [Values.Add, Values.has, h1]
    · have ih2 : List.any (Values.Add rest key value) (fun kv => decide (kv.1 = k))
          = (List.any rest (fun kv => decide (kv.1 = k)) || decide (key = k)) := ih
      simp [Values.Add, Values.has, h0, ih2, Bool.or_assoc]

theorem sprintf_time (t : Time) :
    Sprintf "%v-%d-%v %v:%v:%v"
      [Arg.int t.Year, Arg.int t.Month, Arg.int t.Day,
       Arg.int t.Hour, Arg.int t.Minute, Arg.int t.Second] = renderTime t := by
  apply String.ext
  simp [Sprintf, sprintfGo, fmtArg, renderTime]

theorem sprintf_status (s : Int) (e : Option String) :
    Sprintf "[%v]: %v" [Arg.int s, Arg.err e]
      = "[" ++ fmtInt s ++ "]: " ++ fmtArg (Arg.err e) := by
  apply String.ext
  simp [Sprintf, sprintfGo, fmtArg]

theorem sprintf_url (a b c d : String) :
    Sprintf "%v%v?%v%s" [Arg.str a, Arg.str b, Arg.str c, Arg.str d]
      = a ++ b ++ "?" ++ c ++ d := by
  apply String.ext
  simp [Sprintf, sprintfGo, fmtArg]

theorem sprintf_route (a b : String) :
    Sprintf "/%s%s" [Arg.str a, Arg.str b] = "/" ++ a ++ b := by
  apply String.ext
  simp [Sprintf, sprintfGo, fmtArg]

theorem sprintf_sub (a : String) : Sprintf "%s&" [Arg.str a] = a ++ "&" := by
  apply String.ext
  simp [Sprintf, sprintfGo, fmtArg]

theorem bytesLe_iff (a b : Bytes) : bytesLe a b = true ↔ lexLe a b := by
  induction a generalizing b with
  | nil => simp [bytesLe, lexLe]
  | cons x xs ih =>
    cases b with
    | nil => simp [bytesLe, lexLe]
    | cons y ys =>
      simp only [bytesLe, lexLe]
      by_cases h1 : x < y
      · simp [h1]
      · by_cases h2 : y < x
        · have h3 : ¬ x = y := by omega
          simp [h1, h2, h3]
        · have h3 : x = y := by omega
          simp [h1, h2, h3, ih]

theorem lexLe_total (a b : Bytes) : lexLe a b ∨ lexLe b a := by
  induction a generalizing b with
  | nil => simp [lexLe]
  | cons x xs ih =>
    cases b with
    | nil => simp [lexLe]
    | cons y ys =>
      simp only [lexLe]
      rcases Nat.lt_trichotomy x y with h | h | h
      · exact Or.inl (Or.inl h)
      · rcases ih ys with h2 | h2
        · exact Or.inl (Or.inr ⟨h, h2⟩)
        · exact Or.inr (Or.inr ⟨h.symm, h2⟩)
      · exact Or.inr (Or.inl h)

theorem lexLe_trans (a b c : Bytes) (h1 : lexLe a b) (h2 : lexLe b c) : lexLe a c := by
  induction a generalizing b c with
  | nil => simp [lexLe]
  | cons x xs ih =>
    cases b with
    | nil => simp [lexLe] at h1
    | cons y ys =>
      cases c with
      | nil => simp [lexLe] at h2
      | cons z zs =>
        simp only [lexLe] at h1 h2 ⊢
        rcases h1 with h1 | ⟨h1, h1r⟩
        · rcases h2 with h2 | ⟨h2, _⟩
          · exact Or.inl (by omega)
          · exact Or.inl (by omega)
        · rcases h2 with h2 | ⟨h2, h2r⟩
          · exact Or.inl (by omega)
          · exact Or.inr ⟨by omega, ih ys zs h1r h2r⟩

theorem insertKey_perm (k : String) (xs : List String) : (insertKey k xs).Perm (k :: xs) := by
  induction xs with
  | nil => simp [insertKey]
  | cons x xs ih =>
    simp only [insertKey]
    split_ifs
    · exact List.Perm.refl _
    · exact (ih.cons x).trans (List.Perm.swap k x xs)

theorem sortKeys_perm (ks : List String) : (sortKeys ks).Perm ks := by
  induction ks with
  | nil => simp [sortKeys]
  | cons k ks ih =>
    have h : sortKeys (k :: ks) = insertKey k (sortKeys ks) := rfl
    rw [h]
    exact (insertKey_perm k _).trans (ih.cons k)

theorem insertKey_sorted (k : String) (xs : List String)
    (h : xs.Pairwise (fun a b => lexLe (stringBytes a) (stringBytes b))) :
    (insertKey k xs).Pairwise (fun a b => lexLe (stringBytes a) (stringBytes b)) := by
  induction xs with
  | nil => simp [insertKey]
  | cons x xs ih =>
    rw [List.pairwise_cons] at h
    simp only [insertKey]
    split_ifs with hle
    · rw [bytesLe_iff] at hle
      refine List.pairwise_cons.mpr ⟨?_, List.pairwise_cons.mpr h⟩
      intro y hy
      rcases List.mem_cons.mp hy with rfl | hy
      · exact hle
      · exact lexLe_trans _ _ _ hle (h.1 y hy)
    · have hxk : lexLe (stringBytes x) (stringBytes k) := by
        rcases lexLe_total (stringBytes x) (stringBytes k) with h1 | h1
        · exact h1
        · exact absurd ((bytesLe_iff _ _).mpr h1) hle
      refine List.pairwise_cons.mpr ⟨?_, ih h.2⟩
      intro y hy
      rcases List.mem_cons.mp ((insertKey_perm k xs).mem_iff.mp hy) with rfl | hy
      · exact hxk
      · exact h.1 y hy

theorem sortKeys_sorted (ks : List String) :
    (sortKeys ks).Pairwise (fun a b => lexLe (stringBytes a) (stringBytes b)) := by
  induction ks with
  | nil => simp [sortKeys]
  | cons k ks ih => exact insertKey_sorted k _ ih

/-- Appending one item to the buffer of `Encode`. -/
theorem encodeItem_eq (ke buf x : String) :
    encodeItem ke buf x
      = (if buf.length > 0 then buf ++ "&" else buf) ++ (ke ++ "=" ++ QueryEscape x) := by
  simp only [encodeItem, String.append_assoc]

theorem foldl_encodeItem (ke : String) (vs : List String) (buf : String) :
    vs.foldl (encodeItem ke) buf
      = (vs.map (fun x => ke ++ "=" ++ QueryEscape x)).foldl
          (fun b i => (if b.length > 0 then b ++ "&" else b) ++ i) buf := by
  induction vs generalizing buf with
  | nil => rfl
  | cons x xs ih =>
    simp only [List.foldl_cons, List.map_cons]
    rw [ih, encodeItem_eq]

theorem foldl_keys (v : Values) (ks : List String) (buf : String) :
    ks.foldl (fun buf k => (v.lookup k).foldl (encodeItem (QueryEscape k)) buf) buf
      = (queryItems v ks).foldl (fun b i => (if b.length > 0 then b ++ "&" else b) ++ i) buf := by
  induction ks generalizing buf with
  | nil => rfl
  | cons k ks ih =>
    simp only [List.foldl_cons, queryItems, List.flatMap_cons, List.foldl_append]
    rw [ih, foldl_encodeItem]
    rfl

theorem foldl_join_go (items : List String) (b : String) (hb : b.length > 0) :
    items.foldl (fun b i => (if b.length > 0 then b ++ "&" else b) ++ i) b
      = String.intercalate.go b "&" items := by
  induction items generalizing b with
  | nil => rfl
  | cons i is ih =>
    simp only [List.foldl_cons, String.intercalate.go, if_pos hb]
    apply ih
    simp only [String.length_append]
    omega

theorem foldl_join (items : List String) (h : ∀ i ∈ items, i.length > 0) :
    items.foldl (fun b i => (if b.length > 0 then b ++ "&" else b) ++ i) ""
      = "&".intercalate items := by
  cases items with
  | nil => rfl
  | cons i is =>
    have h0 : ¬ "".length > 0 := by decide
    simp only [List.foldl_cons, String.intercalate, if_neg h0, String.empty_append]
    exact foldl_join_go is i (h i (List.mem_cons_self _ _))

theorem queryItems_length (v : Values) (ks : List String) :
    ∀ i ∈ queryItems v ks, i.length > 0 := by
  intro i hi
  simp only [queryItems, List.mem_flatMap, List.mem_map] at hi
  obtain ⟨k, _, x, _, rfl⟩ := hi
  have h1 : "=".length = 1 := by decide
  simp only [String.length_append, h1]
  omega

theorem Encode_eq_intercalate (v : Values) :
    v.Encode = "&".intercalate (queryItems v (sortKeys (v.map Prod.fst))) := by
  unfold Values.Encode
  rw [foldl_keys, foldl_join _ (queryItems_length v _)]

theorem utf8EncodeChar_lt (c : Char) : ∀ b ∈ utf8EncodeChar c, b < 256 := by
  intro b hb
  have hv : c.toNat < 1114112 := by
    have := c.valid
    simp only [Char.toNat]
    rcases this with h | h
    · exact Nat.lt_trans h (by decide)
    · exact h.2
  unfold utf8EncodeChar at hb
  simp only at hb
  split_ifs at hb <;> simp only [List.mem_cons, List.mem_singleton, List.not_mem_nil, or_false] at hb
  all_goals rcases hb with h | h | h | h <;> omega

theorem stringBytes_lt (s : String) : ∀ b ∈ stringBytes s, b < 256 := by
  intro b hb
  simp only [stringBytes, List.mem_flatMap] at hb
  obtain ⟨c, _, hc⟩ := hb
  exact utf8EncodeChar_lt c b hc

theorem escapeByte_safe : ∀ b < 256, (escapeByte b).all isQuerySafe = true := by
  decide

theorem escapeByte_plain : ∀ b < 256, shouldEscape b = false →
    (Char.ofNat b ≠ '%' ∧ Char.ofNat b ≠ '+' ∧ (Char.ofNat b).toNat = b) := by
  decide

theorem escapeByte_hex : ∀ b < 256,
    hexValue (upperhex (b / 16)) = some (b / 16) ∧ hexValue (upperhex (b % 16)) = some (b % 16) := by
  decide

theorem queryUnescape_escapeByte (b : Nat) (hb : b < 256) (rest : List Char) (r : Bytes)
    (h : queryUnescape rest = some r) :
    queryUnescape (escapeByte b ++ rest) = some (b :: r) := by
  unfold escapeByte
  cases hs : shouldEscape b with
  | false =>
    obtain ⟨h1, h2, h3⟩ := escapeByte_plain b hb hs
    simp only [Bool.false_eq_true, if_false, List.singleton_append]
    rw [queryUnescape.eq_def]
    simp [h1, h2, h3, h]
  | true =>
    by_cases h32 : b = 32
    · subst h32
      simp only [if_true, List.singleton_append]
      rw [queryUnescape.eq_def]
      simp [h]
    · obtain ⟨h1, h2⟩ := escapeByte_hex b hb
      have h3 : 16 * (b / 16) + b % 16 = b := Nat.div_add_mod b 16
      simp only [if_true, if_neg h32, List.cons_append, List.nil_append]
      rw [queryUnescape.eq_def]
      simp [h1, h2, h, h3]

theorem queryUnescape_flatMap (bs : Bytes) (h : ∀ b ∈ bs, b < 256) :
    queryUnescape (bs.flatMap escapeByte) = some bs := by
  induction bs with
  | nil => simp [queryUnescape]
  | cons b bs ih =>
    rw [List.flatMap_cons]
    exact queryUnescape_escapeByte b (h b (List.mem_cons_self _ _)) _ _
      (ih (fun x hx => h x (List.mem_cons_of_mem _ hx)))

theorem QueryEscape_safe (s : String) : (QueryEscape s).data.all isQuerySafe = true := by
  simp only [QueryEscape, List.all_eq_true, List.mem_flatMap]
  rintro c ⟨b, hb, hc⟩
  have := escapeByte_safe b (stringBytes_lt s b hb)
  rw [List.all_eq_true] at this
  exact this c hc

theorem QueryEscape_roundtrip (s : String) :
    queryUnescape (QueryEscape s).data = some (stringBytes s) :=
  queryUnescape_flatMap _ (stringBytes_lt s)

/-! ## The error contract of `call` -/

/-- An environment for the examples: every request is accepted, the transport
answers with the given status and body, and the body decodes to the given
error code. -/
def exampleEnv (status : Int) (body : Bytes) (code : String) : Env Unit where
  NewRequestErr := fun _ _ => none
  Do := fun _ _ => Except.ok ⟨status, body, none⟩
  Unmarshal := fun b => if b = body then some ⟨code⟩ else none

/-- The client used in the examples. -/
def exampleAPI : API Unit :=
  ⟨"http://rgw", "AK", "SK", "admin", ()⟩

/-- C1: when the request is built and sent, the body is read and it decodes to
an application error with a non-empty code `c`, `call` returns the body, the
status and a non-nil error whose message is exactly `c` for status 200 and
exactly `[s]: c` for any other status `s`. -/
theorem call_application_error {Client : Type} (env : Env Client) (api : API Client)
    (verb route : String) (args : Values) (usePrefix : Bool) (sub : List String)
    (resp : Response) (e : apiError)
    (hbuild : env.NewRequestErr verb (callURL api route args usePrefix sub) = none)
    (hdo : env.Do api.client (signedRequest api verb (callURL api route args usePrefix sub))
      = Except.ok resp)
    (hread : resp.readErr = none)
    (hparse : env.Unmarshal resp.body = some e)
    (hcode : e.Code ≠ "") :
    call env api verb route args usePrefix sub
      = (resp.body, resp.StatusCode,
          some (if resp.StatusCode = 200 then e.Code
                else "[" ++ fmtInt resp.StatusCode ++ "]: " ++ e.Code)) := by
  unfold call makeRequest
  simp only [hbuild, hdo, hread, hparse]
  by_cases hs : resp.StatusCode = 200
  · simp [hs, hcode]
  · simp [hs, hcode, sprintf_status, fmtArg]

/-- C1 at status 403 with the body `{"Code":"InvalidAccessKeyId"}`: the error
is `[403]: InvalidAccessKeyId`. -/
theorem call_application_error_witness :
    call (exampleEnv 403 (stringBytes "\x7b\"Code\":\"InvalidAccessKeyId\"\x7d")
        "InvalidAccessKeyId") exampleAPI "GET" "/user" [("format", ["json"])] true []
      = (stringBytes "\x7b\"Code\":\"InvalidAccessKeyId\"\x7d", 403,
          some "[403]: InvalidAccessKeyId") :=
  call_application_error
    (exampleEnv 403 (stringBytes "\x7b\"Code\":\"InvalidAccessKeyId\"\x7d") "InvalidAccessKeyId")
    exampleAPI "GET" "/user" [("format", ["json"])] true []
    ⟨403, stringBytes "\x7b\"Code\":\"InvalidAccessKeyId\"\x7d", none⟩ ⟨"InvalidAccessKeyId"⟩
    rfl rfl rfl (by simp [exampleEnv]) (by decide)

/-- C2: `call` returns the nil error exactly when the request was built and
sent, the body was read, the status is 200 and the body does not decode to an
application error with a non-empty code; a non-200 status `s` without such a
code gives the error `[s]: <nil>`; a request-build or transport failure with
message `m` gives status 0 and the error `[0]: m`. -/
theorem call_nil_error_iff {Client : Type} (env : Env Client) (api : API Client)
    (verb route : String) (args : Values) (usePrefix : Bool) (sub : List String) :
    ((call env api verb route args usePrefix sub).2.2 = none ↔
      (env.NewRequestErr verb (callURL api route args usePrefix sub) = none ∧
        ∃ resp, env.Do api.client
            (signedRequest api verb (callURL api route args usePrefix sub)) = Except.ok resp ∧
          resp.readErr = none ∧ resp.StatusCode = 200 ∧
          ¬ ∃ e, env.Unmarshal resp.body = some e ∧ e.Code ≠ "")) ∧
    (∀ resp, env.NewRequestErr verb (callURL api route args usePrefix sub) = none →
      env.Do api.client
        (signedRequest api verb (callURL api route args usePrefix sub)) = Except.ok resp →
      resp.readErr = none → resp.StatusCode ≠ 200 →
      (¬ ∃ e, env.Unmarshal resp.body = some e ∧ e.Code ≠ "") →
      call env api verb route args usePrefix sub
        = (resp.body, resp.StatusCode, some ("[" ++ fmtInt resp.StatusCode ++ "]: <nil>"))) ∧
    (∀ m, env.NewRequestErr verb (callURL api route args usePrefix sub) = some m →
      call env api verb route args usePrefix sub = ([], 0, some ("[0]: " ++ m))) ∧
    (∀ m, env.NewRequestErr verb (callURL api route args usePrefix sub) = none →
      env.Do api.client
        (signedRequest api verb (callURL api route args usePrefix sub)) = Except.error m →
      call env api verb route args usePrefix sub = ([], 0, some ("[0]: " ++ m))) := by
  have h0 : fmtInt 0 = "0" := by decide
  have hnil : ∀ x : String, "[" ++ x ++ "]: " ++ "<nil>" = "[" ++ x ++ "]: <nil>" := by
    intro x
    apply String.ext
    simp
  have hzero : ∀ m : String, "[" ++ "0" ++ "]: " ++ m = "[0]: " ++ m := by
    intro m
    apply String.ext
    simp
  refine ⟨?_, ?_, ?_, ?_⟩
  · unfold call makeRequest
    cases hb : env.NewRequestErr verb (callURL api route args usePrefix sub) with
    | some m => simp
    | none =>
      cases hd : env.Do api.client
          (signedRequest api verb (callURL api route args usePrefix sub)) with
      | error m => simp
      | ok resp =>
        cases hr : resp.readErr with
        | some m => by_cases hs : resp.StatusCode = 200 <;> simp [hs, hr]
        | none =>
          cases hu : env.Unmarshal resp.body with
          | none => by_cases hs : resp.StatusCode = 200 <;> simp [hs, hr, hu]
          | some e =>
            by_cases hc : e.Code = "" <;> by_cases hs : resp.StatusCode = 200 <;>
              simp [hs, hc, hr, hu]
  · intro resp hb hd hr hs hu
    unfold call makeRequest
    simp only [hb, hd, hr]
    cases hp : env.Unmarshal resp.body with
    | none => simp [hs, sprintf_status, fmtArg, hnil]
    | some e =>
      have hc : e.Code = "" := by
        by_contra hne
        exact hu ⟨e, hp, hne⟩
      simp [hs, hc, sprintf_status, fmtArg, hnil]
  · intro m hb
    unfold call makeRequest
    simp only [hb]
    simp [sprintf_status, fmtArg, h0, hzero]
  · intro m hb hd
    unfold call makeRequest
    simp only [hb, hd]
    simp [sprintf_status, fmtArg, h0, hzero]

/-- C2 at status 200 with the body `{}`, which decodes to an empty code: the
error is nil. -/
theorem call_nil_error_iff_witness :
    (call (exampleEnv 200 (stringBytes "\x7b\x7d") "") exampleAPI "GET" "/user"
      [("format", ["json"])] true []).2.2 = none :=
  (call_nil_error_iff (exampleEnv 200 (stringBytes "\x7b\x7d") "") exampleAPI "GET" "/user"
    [("format", ["json"])] true []).1.mpr
    ⟨rfl, ⟨200, stringBytes "\x7b\x7d", none⟩, rfl, rfl, rfl, by simp [exampleEnv]⟩

/-! ## The URL built by `call` -/

/-- C3: the URL `call` hands to `makeRequest` is the host, then `/` and the
admin segment when `usePrefix` is set, then the route, `?`, the first sub
fragment followed by `&` when one is given, and the encoded arguments. The
encoded arguments are the items `key=value` joined by `&`, with the keys of
`args` taken in bytewise ascending order and keys and values percent-escaped:
an escaped text holds only letters, digits, `-`, `_`, `.`, `~`, `%` and `+`,
and reads back to the bytes of the original. -/
theorem call_url {Client : Type} (env : Env Client) (api : API Client)
    (verb route : String) (args : Values) (usePrefix : Bool) (sub : List String) :
    callURL api route args usePrefix sub
      = api.host ++ (if usePrefix then "/" ++ api.pfx else "") ++ route ++ "?" ++
          (match sub with
            | s :: _ => s ++ "&"
            | [] => "") ++ args.Encode ∧
    call env api verb route args usePrefix sub
      = (match makeRequest env api verb
            (api.host ++ (if usePrefix then "/" ++ api.pfx else "") ++ route ++ "?" ++
              (match sub with
                | s :: _ => s ++ "&"
                | [] => "") ++ args.Encode) with
          | (body, statusCode, err) =>
            if statusCode ≠ 200 then
              (body, statusCode, some ("[" ++ fmtInt statusCode ++ "]: " ++ fmtArg (Arg.err err)))
            else (body, statusCode, err)) ∧
    (∃ keys : List String,
      keys.Perm (args.map Prod.fst) ∧
      keys.Pairwise (fun a b => lexLe (stringBytes a) (stringBytes b)) ∧
      args.Encode = "&".intercalate (queryItems args keys)) ∧
    (∀ s : String,
      (QueryEscape s).data.all isQuerySafe = true ∧
      queryUnescape (QueryEscape s).data = some (stringBytes s)) ∧
    Values.Encode [("uid", ["a b", "ü:"]), ("format", ["json"]), ("Zone", ["x/y"])]
      = "Zone=x%2Fy&format=json&uid=a+b&uid=%C3%BC%3A" ∧
    callURL exampleAPI "/user" [("uid", ["a b"]), ("format", ["json"])] true ["quota"]
      = "http://rgw/admin/user?quota&format=json&uid=a+b" ∧
    callURL exampleAPI "/user" [("uid", ["a b"]), ("format", ["json"])] false []
      = "http://rgw/user?format=json&uid=a+b" := by
  have hurl : callURL api route args usePrefix sub
      = api.host ++ (if usePrefix then "/" ++ api.pfx else "") ++ route ++ "?" ++
          (match sub with
            | s :: _ => s ++ "&"
            | [] => "") ++ args.Encode := by
    unfold callURL
    simp only [sprintf_url, sprintf_route, sprintf_sub]
    cases usePrefix <;> cases sub <;> apply String.ext <;> simp
  refine ⟨hurl, ?_, ?_, ?_, by decide, by decide, by decide⟩
  · unfold call
    rw [hurl]
    simp only [sprintf_status]
  · exact ⟨sortKeys (args.map Prod.fst), sortKeys_perm _, sortKeys_sorted _,
      Encode_eq_intercalate args⟩
  · intro s
    exact ⟨QueryEscape_safe s, QueryEscape_roundtrip s⟩

/-! ## The requests of the facade -/

/-- C4: with an identifier `u` (and whatever follows it), `GetUser` calls `get`
on the route `/admin/user` with the values `format = [json]`, `uid = [u]`,
which encode to `format=json&uid=` followed by the escaped `u`; with no
identifier the values are `format = [json]` alone and no `uid` key is sent.
For `alice` the encoded query is `format=json&uid=alice`, and the URL `call`
builds from this route and these values without adding the admin segment is
the host followed by `/admin/user?format=json&uid=alice`. -/
theorem GetUser_request {User Client : Type}
    (get : String → Values → Bytes × Int × Option String)
    (decode : Bytes → Except String User) (api : API Client) (u : String) (more : List String) :
    GetUser get decode (u :: more)
      = (match get "/admin/user" [("format", ["json"]), ("uid", [u])] with
          | (_, _, some err) => Except.error err
          | (body, _, none) => decode body) ∧
    GetUserValues (u :: more) = [("format", ["json"]), ("uid", [u])] ∧
    (GetUserValues (u :: more)).Encode = "format=json&uid=" ++ QueryEscape u ∧
    GetUser get decode []
      = (match get "/admin/user" [("format", ["json"])] with
          | (_, _, some err) => Except.error err
          | (body, _, none) => decode body) ∧
    GetUserValues [] = [("format", ["json"])] ∧
    (GetUserValues []).has "uid" = false ∧
    (GetUserValues []).Encode = "format=json" ∧
    (GetUserValues ["alice"]).Encode = "format=json&uid=alice" ∧
    callURL api "/admin/user" (GetUserValues ["alice"]) false []
      = api.host ++ "/admin/user?format=json&uid=alice" := by
  have hv : GetUserValues (u :: more) = [("format", ["json"]), ("uid", [u])] := by
    simp [GetUserValues, Values.Add]
  have hv0 : GetUserValues [] = [("format", ["json"])] := by
    simp [GetUserValues, Values.Add]
  have hsort : sortKeys ["format", "uid"] = ["format", "uid"] := by decide
  have hq1 : QueryEscape "format" = "format" := by decide
  have hq2 : QueryEscape "uid" = "uid" := by decide
  have hq3 : QueryEscape "json" = "json" := by decide
  have henc : (GetUserValues (u :: more)).Encode = "format=json&uid=" ++ QueryEscape u := by
    rw [hv]
    simp only [Values.Encode, List.map, hsort, List.foldl, Values.lookup, encodeItem,
      hq1, hq2, hq3]
    have hlen : "format=json".length > 0 := by decide
    have hfirst : (if "".length > 0 then "" ++ "&" else "") ++ "format" ++ "=" ++ "json"
        = "format=json" := by decide
    rw [hfirst, if_pos hlen]
    apply String.ext
    simp
  have halice : (GetUserValues ["alice"]).Encode = "format=json&uid=alice" := by decide
  refine ⟨?_, hv, henc, ?_, hv0, by decide, by decide, halice, ?_⟩
  · unfold GetUser
    rw [hv]
  · unfold GetUser
    rw [hv0]
  · unfold callURL
    rw [halice]
    simp only [sprintf_url]
    apply String.ext
    simp

/-- The values of `DeleteUsage` as an explicit list, in the order added. -/
theorem DeleteUsageValues_eq (conf : Option UsageConfig) :
    DeleteUsageValues conf
      = [("format", ["json"])] ++
        (match conf with
          | none => []
          | some c =>
            (if c.UID ≠ "" then [("uid", [c.UID])] else []) ++
            (if c.RemoveAll = true then [("remove-all", ["True"])] else []) ++
            (match c.Start with
              | some t => [("start", [renderTime t])]
              | none => []) ++
            (match c.End with
              | some t => [("end", [renderTime t])]
              | none => [])) := by
  cases conf with
  | none => simp [DeleteUsageValues, Values.Add]
  | some c =>
    obtain ⟨uid, start, fin, se, ss, ra⟩ := c
    by_cases hu : uid = "" <;> cases ra <;> cases start <;> cases fin <;>
      simp [DeleteUsageValues, Values.Add, sprintf_time, hu]

/-- C5, with its last clause restricted to RemoveAll unset: the values
`DeleteUsage` hands to `delete` on `/admin/usage`
are `format=json` always, `uid` exactly when the configuration is present with
a non-empty UID, `remove-all=True` exactly when it is present with RemoveAll
set, `start` and `end` exactly when the respective time is set, and no other
key; a nil configuration, or one with no UID, no window and RemoveAll unset,
gives `format=json` alone. -/
theorem DeleteUsage_values (delete : String → Values → Bytes × Int × Option String)
    (conf : Option UsageConfig) :
    DeleteUsage delete conf
      = (match delete "/admin/usage" (DeleteUsageValues conf) with
          | (_, _, some err) => some err
          | (_, _, none) => none) ∧
    (DeleteUsageValues conf).lookup "format" = ["json"] ∧
    ((DeleteUsageValues conf).has "uid" = true ↔ ∃ c, conf = some c ∧ c.UID ≠ "") ∧
    (∀ c, conf = some c → (DeleteUsageValues conf).lookup "uid"
      = if c.UID ≠ "" then [c.UID] else []) ∧
    ((DeleteUsageValues conf).has "remove-all" = true ↔ ∃ c, conf = some c ∧ c.RemoveAll = true) ∧
    (∀ c, conf = some c → (DeleteUsageValues conf).lookup "remove-all"
      = if c.RemoveAll = true then ["True"] else []) ∧
    ((DeleteUsageValues conf).has "start" = true ↔ ∃ c, conf = some c ∧ c.Start ≠ none) ∧
    ((DeleteUsageValues conf).has "end" = true ↔ ∃ c, conf = some c ∧ c.End ≠ none) ∧
    (∀ k, (DeleteUsageValues conf).has k = true →
      k = "format" ∨ k = "uid" ∨ k = "remove-all" ∨ k = "start" ∨ k = "end") ∧
    (conf = none → DeleteUsageValues conf = [("format", ["json"])]) ∧
    (∀ c, conf = some c → c.UID = "" → c.Start = none → c.End = none → c.RemoveAll = false →
      DeleteUsageValues conf = [("format", ["json"])] ∧
      (DeleteUsageValues conf).Encode = "format=json") := by
  have hkeys : ∀ k, (DeleteUsageValues conf).has k = true →
      k = "format" ∨ k = "uid" ∨ k = "remove-all" ∨ k = "start" ∨ k = "end" := by
    intro k hk
    rw [DeleteUsageValues_eq] at hk
    cases conf with
    | none =>
      simp [Values.has] at hk
      simp [← hk]
    | some c =>
      obtain ⟨uid, start, fin, se, ss, ra⟩ := c
      by_cases hu : uid = "" <;> cases ra <;> cases start <;> cases fin <;>
        simp [Values.has, hu] at hk <;> aesop
  refine ⟨rfl, ?_, ?_, ?_, ?_, ?_, ?_, ?_, hkeys, ?_, ?_⟩
  all_goals rw [DeleteUsageValues_eq]
  all_goals cases conf with
    | none => simp [Values.has, Values.lookup]
    | some c =>
      obtain ⟨uid, start, fin, se, ss, ra⟩ := c
      by_cases hu : uid = "" <;> cases ra <;> cases start <;> cases fin <;>
        simp [Values.has, Values.lookup, hu] <;> decide

/-- C5 at a configuration with nothing set: the values are `format=json`
alone. -/
theorem DeleteUsage_values_witness :
    DeleteUsageValues (some ⟨"", none, none, false, false, false⟩) = [("format", ["json"])] ∧
    (DeleteUsageValues (some ⟨"", none, none, false, false, false⟩)).Encode = "format=json" :=
  (DeleteUsage_values (fun _ _ => ([], 200, none))
    (some ⟨"", none, none, false, false, false⟩)).2.2.2.2.2.2.2.2.2.2
    ⟨"", none, none, false, false, false⟩ rfl rfl rfl rfl rfl

/-- C5 as worded fails: a configuration with no UID and no window but with
RemoveAll set does not give `format=json` alone, it also carries
`remove-all=True`. -/
theorem DeleteUsage_values_counterexample :
    (⟨"", none, none, false, false, true⟩ : UsageConfig).UID = "" ∧
    (⟨"", none, none, false, false, true⟩ : UsageConfig).Start.isNone = true ∧
    (⟨"", none, none, false, false, true⟩ : UsageConfig).End.isNone = true ∧
    DeleteUsageValues (some ⟨"", none, none, false, false, true⟩)
      ≠ [("format", ["json"])] ∧
    DeleteUsageValues (some ⟨"", none, none, false, false, true⟩)
      = [("format", ["json"]), ("remove-all", ["True"])] ∧
    (DeleteUsageValues (some ⟨"", none, none, false, false, true⟩)).Encode
      = "format=json&remove-all=True" := by
  decide

/-- The values of `GetUsage` under any key, relative to the translated ones. -/
theorem GetUsageValues_lookup (translated : Values) (conf : Option UsageConfig) (k : String) :
    (GetUsageValues translated conf).lookup k
      = translated.lookup k ++
        (if "format" = k then ["json"] else []) ++
        (match conf with
          | none => []
          | some c =>
            (if c.ShowEntries = false ∧ "show-entries" = k then ["False"] else []) ++
            (if c.ShowSummary = false ∧ "show-summary" = k then ["False"] else []) ++
            (match c.Start with
              | some t => if "start" = k then [renderTime t] else []
              | none => []) ++
            (match c.End with
              | some t => if "end" = k then [renderTime t] else []
              | none => [])) := by
  cases conf with
  | none =>
    by_cases h : "format" = k <;> simp [GetUsageValues, lookup_Add, h]
  | some c =>
    obtain ⟨uid, start, fin, se, ss, ra⟩ := c
    cases se <;> cases ss <;> cases start <;> cases fin <;>
      simp [GetUsageValues, lookup_Add, sprintf_time] <;>
      split_ifs <;> simp

/-- C6: `GetUsage` calls `get` on `/admin/usage` with values in which
`format` has `json` appended in every case, and in which, for a non-nil
configuration, `show-entries` (`show-summary`) has the literal `False` appended
after what the translation produced for that key when ShowEntries
(ShowSummary) is false and is left as translated when the flag is true; for a
nil configuration both keys are left as translated. -/
theorem GetUsage_show_flags {Usage : Type} (Translate : Option UsageConfig → Values)
    (get : String → Values → Bytes × Int × Option String)
    (decode : Bytes → Except String Usage) (translated : Values) (c : UsageConfig) :
    (GetUsage Translate get decode (some c)
      = (match get "/admin/usage" (GetUsageValues (Translate (some c)) (some c)) with
          | (_, _, some err) => Except.error err
          | (body, _, none) => decode body)) ∧
    (GetUsage Translate get decode none
      = (match get "/admin/usage" (GetUsageValues (Translate none) none) with
          | (_, _, some err) => Except.error err
          | (body, _, none) => decode body)) ∧
    (GetUsageValues translated (some c)).lookup "show-entries"
      = translated.lookup "show-entries" ++ (if c.ShowEntries = false then ["False"] else []) ∧
    (GetUsageValues translated (some c)).lookup "show-summary"
      = translated.lookup "show-summary" ++ (if c.ShowSummary = false then ["False"] else []) ∧
    (GetUsageValues translated none).lookup "show-entries" = translated.lookup "show-entries" ∧
    (GetUsageValues translated none).lookup "show-summary" = translated.lookup "show-summary" ∧
    (GetUsageValues translated (some c)).lookup "format" = translated.lookup "format" ++ ["json"] ∧
    (GetUsageValues translated none).lookup "format" = translated.lookup "format" ++ ["json"] := by
  refine ⟨rfl, rfl, ?_, ?_, ?_, ?_, ?_, ?_⟩
  all_goals rw [GetUsageValues_lookup]
  all_goals obtain ⟨uid, start, fin, se, ss, ra⟩ := c
  all_goals cases se <;> cases ss <;> cases start <;> cases fin <;> simp

/-- C7: for a set Start or End time `t`, `DeleteUsage` sends exactly the
rendering of `t` under `start` / `end`, and `GetUsage` appends the same
rendering to what the translation produced under that key; the rendering is
year, month number, day, hour, minute and second in decimal without padding,
so 5 January 2015 03:04:05 is `2015-1-5 3:4:5`. -/
theorem timestamp_format (translated : Values) (c : UsageConfig) (t : Time) :
    (DeleteUsageValues (some { c with Start := some t })).lookup "start" = [renderTime t] ∧
    (DeleteUsageValues (some { c with End := some t })).lookup "end" = [renderTime t] ∧
    (GetUsageValues translated (some { c with Start := some t })).lookup "start"
      = translated.lookup "start" ++ [renderTime t] ∧
    (GetUsageValues translated (some { c with End := some t })).lookup "end"
      = translated.lookup "end" ++ [renderTime t] ∧
    renderTime t
      = fmtInt t.Year ++ "-" ++ fmtInt t.Month ++ "-" ++ fmtInt t.Day ++ " " ++
          fmtInt t.Hour ++ ":" ++ fmtInt t.Minute ++ ":" ++ fmtInt t.Second ∧
    renderTime ⟨2015, 1, 5, 3, 4, 5⟩ = "2015-1-5 3:4:5" ∧
    (DeleteUsageValues (some ⟨"", some ⟨2015, 1, 5, 3, 4, 5⟩, none, false, false, false⟩)).Encode
      = "format=json&start=2015-1-5+3%3A4%3A5" := by
  obtain ⟨uid, start, fin, se, ss, ra⟩ := c
  refine ⟨?_, ?_, ?_, ?_, rfl, by decide, by decide⟩
  · rw [DeleteUsageValues_eq]
    by_cases hu : uid = "" <;> cases ra <;> cases fin <;> simp [Values.lookup, hu]
  · rw [DeleteUsageValues_eq]
    by_cases hu : uid = "" <;> cases ra <;> cases start <;> simp [Values.lookup, hu]
  · rw [GetUsageValues_lookup]
    cases se <;> cases ss <;> cases fin <;> simp
  · rw [GetUsageValues_lookup]
    cases se <;> cases ss <;> cases start <;> simp

/-! ## The payload hash -/

theorem sha256_empty :
    sha256 [] = [227, 176, 196, 66, 152, 252, 28, 20, 154, 251, 244, 200, 153, 111, 185, 36,
      39, 174, 65, 228, 100, 155, 147, 76, 164, 149, 153, 27, 120, 82, 184, 85] := by
  decide

theorem sha256_byte_lt (msg : Bytes) : ∀ b ∈ sha256 msg, b < 256 := by
  intro b hb
  simp only [sha256, List.mem_flatMap] at hb
  obtain ⟨w, _, hw⟩ := hb
  simp only [List.mem_cons, List.mem_singleton, List.not_mem_nil, or_false] at hw
  rcases hw with h | h | h | h <;> rw [h] <;> exact Nat.mod_lt _ (by decide)

theorem hexEncode_lower (bs : Bytes) (h : ∀ b ∈ bs, b < 256) :
    (hexEncode bs).all isLowerHex = true := by
  rw [List.all_eq_true]
  intro c hc
  simp only [hexEncode, List.mem_flatMap] at hc
  obtain ⟨b, hb, hcb⟩ := hc
  have hlt := h b hb
  have h1 : b / 16 < 16 := by omega
  have h2 : b % 16 < 16 := by omega
  simp only [List.mem_cons, List.mem_singleton, List.not_mem_nil, or_false] at hcb
  rcases hcb with hc | hc <;> rw [hc] <;> unfold hexDigitByte isLowerHex <;>
    split_ifs <;> simp <;> omega

/-- C8: for a request with a nil body `getRequestBodySHA256` returns the
64 characters `e3b0c442...7852b855`, all lowercase hexadecimal digits, which
are the hexadecimal rendering of the SHA-256 digest of the empty input; the
request `makeRequest` builds has a nil body, so the hash it signs with is this
one. -/
theorem getRequestBodySHA256_nil_body {Client : Type} (api : API Client)
    (method url verb target : String) :
    (getRequestBodySHA256 ⟨method, url, none⟩).1
      = stringBytes "e3b0c44298fc1c149afbf4c8996fb92427ae41e4649b934ca495991b7852b855" ∧
    (getRequestBodySHA256 ⟨method, url, none⟩).1.length = 64 ∧
    (getRequestBodySHA256 ⟨method, url, none⟩).1.all isLowerHex = true ∧
    (getRequestBodySHA256 ⟨method, url, none⟩).1 = hexEncode (sha256 []) ∧
    (getRequestBodySHA256 ⟨method, url, none⟩).2 = ⟨method, url, none⟩ ∧
    (signedRequest api verb target).request = ⟨verb, target, none⟩ ∧
    (signedRequest api verb target).payloadHash = hexEncode (sha256 []) ∧
    (signedRequest api verb target).payloadHash
      = stringBytes "e3b0c44298fc1c149afbf4c8996fb92427ae41e4649b934ca495991b7852b855" := by
  have hconst : stringBytes "e3b0c44298fc1c149afbf4c8996fb92427ae41e4649b934ca495991b7852b855"
      = hexEncode (sha256 []) := by
    rw [sha256_empty]
    decide
  have hlen : (stringBytes
      "e3b0c44298fc1c149afbf4c8996fb92427ae41e4649b934ca495991b7852b855").length = 64 := by
    decide
  have hhex : (stringBytes
      "e3b0c44298fc1c149afbf4c8996fb92427ae41e4649b934ca495991b7852b855").all isLowerHex
        = true := by
    decide
  refine ⟨rfl, hlen, hhex, hconst, rfl, rfl, hconst, rfl⟩

/-- The payload hash for a request with a body, for every payload: the
payload followed by the 32 raw bytes of the digest of the empty input, never
the hexadecimal digest of the payload; the body is put back unchanged. -/
theorem getRequestBodySHA256_body (method url : String) (p : Bytes) :
    (getRequestBodySHA256 ⟨method, url, some p⟩).1 = p ++ sha256 [] ∧
    (getRequestBodySHA256 ⟨method, url, some p⟩).1.length = p.length + 32 ∧
    (getRequestBodySHA256 ⟨method, url, some p⟩).1 ≠ hexEncode (sha256 p) ∧
    (getRequestBodySHA256 ⟨method, url, some p⟩).2 = ⟨method, url, some p⟩ := by
  have h1 : (getRequestBodySHA256 ⟨method, url, some p⟩).1 = p ++ sha256 [] := rfl
  refine ⟨h1, ?_, ?_, rfl⟩
  · rw [h1, sha256_empty]
    simp
  · rw [h1]
    intro heq
    have hall := hexEncode_lower (sha256 p) (sha256_byte_lt p)
    rw [← heq, List.all_append, sha256_empty] at hall
    have hfalse : List.all [227, 176, 196, 66, 152, 252, 28, 20, 154, 251, 244, 200, 153, 111,
        185, 36, 39, 174, 65, 228, 100, 155, 147, 76, 164, 149, 153, 27, 120, 82, 184, 85]
        isLowerHex = false := by
      decide
    rw [hfalse] at hall
    simp at hall

/-- C10, without its clause on the returned digest: for a request with a
body holding the bytes `p`, `getRequestBodySHA256` leaves the request with a
body holding exactly `p`; and no request the package builds has a body, since
`makeRequest` creates each one with a nil body and so signs with the 64
hexadecimal characters of the digest of the empty input. -/
theorem getRequestBodySHA256_restores_body {Client : Type} (api : API Client)
    (method url verb target : String) (p : Bytes) :
    (getRequestBodySHA256 ⟨method, url, some p⟩).2 = ⟨method, url, some p⟩ ∧
    (getRequestBodySHA256 ⟨method, url, some p⟩).2.Body = some p ∧
    (signedRequest api verb target).request.Body = none ∧
    (signedRequest api verb target).payloadHash = hexEncode (sha256 []) ∧
    (signedRequest api verb target).payloadHash.length = 64 := by
  have hconst : stringBytes "e3b0c44298fc1c149afbf4c8996fb92427ae41e4649b934ca495991b7852b855"
      = hexEncode (sha256 []) := by
    rw [sha256_empty]
    decide
  have hlen : (stringBytes
      "e3b0c44298fc1c149afbf4c8996fb92427ae41e4649b934ca495991b7852b855").length = 64 := by
    decide
  exact ⟨rfl, rfl, rfl, hconst, hlen⟩

/-- C10 as worded fails at the payload `abc`: `getRequestBodySHA256` returns
the three payload bytes followed by the 32 raw bytes of the digest of the empty
input, 35 bytes in all, and not the 64 hexadecimal characters
`ba7816bf...f20015ad` of the digest of `abc`; the body is left holding `abc`. -/
theorem getRequestBodySHA256_body_counterexample :
    (getRequestBodySHA256 ⟨"PUT", "http://rgw/bucket", some (stringBytes "abc")⟩).1
      = [97, 98, 99, 227, 176, 196, 66, 152, 252, 28, 20, 154, 251, 244, 200, 153, 111, 185,
          36, 39, 174, 65, 228, 100, 155, 147, 76, 164, 149, 153, 27, 120, 82, 184, 85] ∧
    (getRequestBodySHA256 ⟨"PUT", "http://rgw/bucket", some (stringBytes "abc")⟩).1.length
      = 35 ∧
    hexEncode (sha256 (stringBytes "abc"))
      = stringBytes "ba7816bf8f01cfea414140de5dae2223b00361a396177a9cb410ff61f20015ad" ∧
    (getRequestBodySHA256 ⟨"PUT", "http://rgw/bucket", some (stringBytes "abc")⟩).1
      ≠ hexEncode (sha256 (stringBytes "abc")) ∧
    (getRequestBodySHA256 ⟨"PUT", "http://rgw/bucket", some (stringBytes "abc")⟩).2.Body
      = some (stringBytes "abc") := by
  have h := getRequestBodySHA256_body "PUT" "http://rgw/bucket" (stringBytes "abc")
  refine ⟨?_, ?_, by decide, h.2.2.1, rfl⟩
  · rw [h.1, sha256_empty]
    decide
  · rw [h.2.1]
    decide

/-! ## Construction -/

/-- C9: `NewWithClient` fails exactly when the host, the access key or the
secret key is empty, and then returns only the error; otherwise it returns the
client holding the given host, keys and transport, with the first
`adminPrefix` argument as admin segment when one is supplied, also an empty
one, and `admin` when none is; `New` does the same with the default
transport. -/
theorem NewWithClient_spec {Client : Type} (client zeroClient : Client)
    (host accessKey secretKey : String) (adminPrefix : List String) :
    ((∃ e, NewWithClient client host accessKey secretKey adminPrefix = Except.error e) ↔
      (host = "" ∨ accessKey = "" ∨ secretKey = "")) ∧
    ((host = "" ∨ accessKey = "" ∨ secretKey = "") →
      NewWithClient client host accessKey secretKey adminPrefix
        = Except.error "host, accessKey, secretKey must be not nil") ∧
    (¬ (host = "" ∨ accessKey = "" ∨ secretKey = "") →
      NewWithClient client host accessKey secretKey adminPrefix
        = Except.ok ⟨host, accessKey, secretKey,
            (match adminPrefix with
              | p :: _ => p
              | [] => "admin"), client⟩) ∧
    New zeroClient host accessKey secretKey adminPrefix
      = NewWithClient zeroClient host accessKey secretKey adminPrefix := by
  have hmsg : Sprintf "host, accessKey, secretKey must be not nil" []
      = "host, accessKey, secretKey must be not nil" := by decide
  by_cases h : host = "" ∨ accessKey = "" ∨ secretKey = ""
  · refine ⟨?_, ?_, ?_, rfl⟩
    · simp [NewWithClient, h]
    · intro _
      simp [NewWithClient, h, hmsg]
    · intro hn
      exact absurd h hn
  · refine ⟨?_, ?_, ?_, rfl⟩
    · simp [NewWithClient, h]
    · intro hp
      exact absurd hp h
    · intro _
      simp only [NewWithClient, if_neg h]

/-- C9 at a supplied empty admin segment: the client is returned and its admin
segment is the empty string. -/
theorem NewWithClient_spec_witness :
    NewWithClient () "http://rgw" "AK" "SK" [""]
      = Except.ok ⟨"http://rgw", "AK", "SK", "", ()⟩ :=
  (NewWithClient_spec () () "http://rgw" "AK" "SK" [""]).2.2.1 (by decide)

/-! ## Values of the library embedding at known inputs -/

theorem Sprintf_status_known :
    Sprintf "[%v]: %v" [Arg.int 403, Arg.err (some "InvalidAccessKeyId")]
      = "[403]: InvalidAccessKeyId" ∧
    Sprintf "[%v]: %v" [Arg.int 404, Arg.err none] = "[404]: <nil>" ∧
    Sprintf "[%v]: %v" [Arg.int (-1), Arg.err (some "x")] = "[-1]: x" := by
  decide

theorem Encode_known :
    Values.Encode [("uid", ["a b", "ü:"]), ("format", ["json"])]
      = "format=json&uid=a+b&uid=%C3%BC%3A" ∧
    Values.Encode [] = "" := by
  decide

theorem sha256_known :
    hexEncode (sha256 (stringBytes "abc"))
      = stringBytes "ba7816bf8f01cfea414140de5dae2223b00361a396177a9cb410ff61f20015ad" ∧
    hexEncode (sha256 (List.replicate 100 97))
      = stringBytes "2816597888e4a0d3a36b82b83316ab32680eb8f00f8cd3b904d681246d285a0e" := by
  decide

end radosAPI
